import Mathlib

/-!
Verification of the aggregated front-end JavaScript of the drupal-portfolio
repository (`web/sites/default/files/js/js_fubY….js`) and of its README,
against the repository specification.

Every definition below is a shallow embedding of a function or data shape
found in the source file; JavaScript numbers that are used as integers are
modelled as `Int`/`Nat`, JavaScript promise chains as sequential `Except`
computations, and DOM side effects as explicit state records or effect lists.
-/

/- ================================================================
   Drupal.entityBrowser.updateEntityIds  (entity_browser.common.js)
   ================================================================ -/

/-- The combined entity-id list computed by
`Drupal.entityBrowser.updateEntityIds` before it is joined with spaces:
the selection-mode dispatch (`selection_edit` keeps only the new selection,
`selection_prepend` puts it first, anything else appends it) followed by the
cardinality truncation `combined_entities.slice(0, cardinality)` that the
source applies only when `cardinality > 0 && combined_entities.length >
cardinality`. -/
def combinedEntities (existing_entities selected_entities : List String)
    (selection_mode : String) : List String :=
  if selection_mode = "selection_edit" then selected_entities
  else if selection_mode = "selection_prepend" then
    selected_entities ++ existing_entities
  else existing_entities ++ selected_entities

/-- The truncation step of `updateEntityIds` applied to the combined list. -/
def updateEntityIdsList (existing_entities selected_entities : List String)
    (selection_mode : String) (cardinality : Int) : List String :=
  let combined := combinedEntities existing_entities selected_entities selection_mode
  if 0 < cardinality ∧ cardinality < (combined.length : Int) then
    combined.take cardinality.toNat
  else combined

/-- `Drupal.entityBrowser.updateEntityIds`: returns the combined list joined
by single spaces (`combined_entities.join(' ')`). -/
def updateEntityIds (existing_entities selected_entities : List String)
    (selection_mode : String) (cardinality : Int) : String :=
  String.intercalate " "
    (updateEntityIdsList existing_entities selected_entities selection_mode cardinality)

/- ================================================================
   README setup procedure  (src/README.md, section "Set up")
   ================================================================ -/

/-- The shell commands of the README section `## Set up`, transcribed in
order from the only code block of that section. -/
def readmeSetupCommands : List String := ["lando init", "lando start"]

/-- Containment of one character list inside another, by prefix scan. -/
def charsContain (s pat : List Char) : Bool :=
  match s with
  | [] => pat.isEmpty
  | _ :: rest => pat.isPrefixOf s || charsContain rest pat

/-- Substring test used to ask whether a documented command mentions a topic. -/
def mentionsWord (command word : String) : Bool :=
  charsContain command.data word.data

/-- Whether the README setup section documents a database-import step:
some documented command mentions a database or an import at all. -/
def readmeDocumentsDatabaseImport : Bool :=
  readmeSetupCommands.any (fun c =>
    mentionsWord c "db" || mentionsWord c "database" || mentionsWord c "sql" ||
      mentionsWord c "import")

/-- Whether the README setup section documents a configuration-import step:
some documented command mentions configuration. -/
def readmeDocumentsConfigImport : Bool :=
  readmeSetupCommands.any (fun c =>
    mentionsWord c "config" || mentionsWord c "cim" || mentionsWord c "import")

/- ================================================================
   Inventory of the aggregated JavaScript file  (C5)
   ================================================================ -/

/-- The subsystems the specification advertises for the aggregated file:
a Drupal Bootstrap theme integration layer (Drupal.bootstrap and the
Attributes class), the DXPR Builder runtime, Drupal core AJAX, dialog and
progress-bar subsystems, and the entity-browser helper. -/
inductive AdvertisedSubsystem where
  | bootstrapTheme
  | dxprBuilder
  | ajax
  | dialog
  | progressBar
  | entityBrowser
deriving DecidableEq, Repr

/-- The top-level components aggregated in the JavaScript file, in file
order, each transcribed from its `@file` banner (or, for the minified DXPR
Builder and loadjs payloads, from its top-level definition), and paired with
the advertised subsystem it belongs to (`none` when it is a separate
component that none of the advertised subsystems names). -/
def aggregatedFileComponents : List (String × Option AdvertisedSubsystem) :=
  [("drupal.bootstrap", some .bootstrapTheme),       -- Drupal Bootstrap object
   ("attributes", some .bootstrapTheme),             -- the Attributes class
   ("bootstrap.theme", some .bootstrapTheme),        -- theme hooks
   ("bootstrap.popover", some .bootstrapTheme),      -- Bootstrap Popovers
   ("bootstrap.tooltip", some .bootstrapTheme),      -- Bootstrap Tooltips
   ("dxprBuilder", some .dxprBuilder),               -- minified DXPR Builder runtime
   ("progress", some .progressBar),                  -- core progress.js
   ("bootstrap.progress", some .progressBar),        -- bootstrap override of progress.js
   ("loadjs", none),                                 -- loadjs script-loader library
   ("ajax", some .ajax),                             -- core ajax.js
   ("bootstrap.ajax", some .ajax),                   -- bootstrap override of ajax.js
   ("debounce", none),                               -- Drupal.debounce utility
   ("displace", none),                               -- Drupal.displace viewport-offset manager
   ("tabbingshim", none),                            -- jQuery UI tabbable-selector shim
   ("jquery.ui.position", none),                     -- ported jQuery UI position
   ("bootstrap.modal", some .bootstrapTheme),        -- Bootstrap Modals
   ("bootstrap.dialog", some .dialog),               -- bootstrap dialog.js
   ("bootstrap.modal.dialog", some .bootstrapTheme), -- Bootstrap Modals dialog bridge
   ("dialog", some .dialog),                         -- core dialog.js
   ("dialog.position", some .dialog),                -- dialog positioning extensions
   ("dialog.focustrap", some .dialog),               -- jQuery UI focus-trap override for dialogs
   ("dialog.ajax", some .dialog),                    -- core dialog AJAX integration
   ("bootstrap.dialog.ajax", some .dialog),          -- bootstrap dialog.ajax.js
   ("entity_browser.common", some .entityBrowser)]   -- entity_browser.common.js

/- ================================================================
   Drupal.ProgressBar.prototype.setProgress
   (core progress.js and its bootstrap override)
   ================================================================ -/

/-- JavaScript whitespace characters matched by `\s` that can occur in the
messages at issue (the full `\s` class also holds rarer Unicode space
characters, which behave identically here). -/
def jsWs (c : Char) : Bool :=
  c == ' ' || c == '\t' || c == '\n' || c == '\r' ||
    c == Char.ofNat 11 || c == Char.ofNat 12

/-- The literal alternative of the message-trimming regex. -/
def brNbsp : List Char := "<br/>&nbsp;".data

/-- `message.replace(/<br\/>&nbsp;|\s*$/, '')` from the bootstrap override of
`setProgress`: a non-global JavaScript replace removes the single leftmost
match, which is either the literal `<br/>&nbsp;` or the run of trailing
whitespace (possibly empty, at the very end), whichever starts first; at
equal positions the literal alternative wins because it is tried first. -/
def trimMessageChars (s : List Char) : List Char :=
  match s with
  | [] => []
  | c :: rest =>
    if brNbsp.isPrefixOf (c :: rest) then (c :: rest).drop brNbsp.length
    else if (c :: rest).all jsWs then []
    else c :: trimMessageChars rest

/-- String form of the message trimming performed by the bootstrap override. -/
def trimMessage (s : String) : String :=
  ⟨trimMessageChars s.data⟩

/-- The parts of the progress-bar DOM that `setProgress` touches: the css
width of the bar, its `aria-valuenow` attribute (bootstrap override only),
and the percentage, message and label html. -/
structure ProgressDom where
  barWidth : String
  ariaValuenow : Option Int
  percentageHtml : String
  messageHtml : String
  labelHtml : String
deriving Repr, DecidableEq

/-- A recorded invocation `this.updateCallback(percentage, message, this)`. -/
structure ProgressCallbackCall where
  percentage : Int
  message : String
deriving Repr, DecidableEq

/-- Core `Drupal.ProgressBar.prototype.setProgress` (progress.js): inside the
range check it sets the bar width and percentage html; it unconditionally
writes the description and label html; and when an update callback was
supplied at construction it invokes it with the given percentage and
message. -/
def setProgressCore (hasCallback : Bool) (dom : ProgressDom)
    (percentage : Int) (message label : String) :
    ProgressDom × Option ProgressCallbackCall :=
  let dom :=
    if 0 ≤ percentage ∧ percentage ≤ 100 then
      { dom with barWidth := toString percentage ++ "%",
                 percentageHtml := toString percentage ++ "%" }
    else dom
  let dom := { dom with messageHtml := message, labelHtml := label }
  (dom, if hasCallback then some ⟨percentage, message⟩ else none)

/-- The bootstrap override of `setProgress` (the later `$.extend` on
`Drupal.ProgressBar.prototype`, hence the effective method): inside the range
check it also sets `aria-valuenow`; a truthy (non-empty) message is first
reassigned to its trimmed form and only then written, so the update callback
receives the trimmed message; a truthy label is written; the callback, when
supplied, always runs. -/
def setProgressBootstrap (hasCallback : Bool) (dom : ProgressDom)
    (percentage : Int) (message label : String) :
    ProgressDom × Option ProgressCallbackCall :=
  let dom :=
    if 0 ≤ percentage ∧ percentage ≤ 100 then
      { dom with barWidth := toString percentage ++ "%",
                 ariaValuenow := some percentage,
                 percentageHtml := toString percentage ++ "%" }
    else dom
  let md :=
    if message ≠ "" then
      let m := trimMessage message
      (m, { dom with messageHtml := m })
    else (message, dom)
  let message := md.1
  let dom := md.2
  let dom := if label ≠ "" then { dom with labelHtml := label } else dom
  (dom, if hasCallback then some ⟨percentage, message⟩ else none)

/- ================================================================
   Drupal.Ajax.prototype.error and Drupal.AjaxError
   ================================================================ -/

/-- The page-level effects that `Drupal.Ajax.prototype.error` performs
before throwing, in source order. -/
inductive AjaxErrorEffect where
  | removeProgressElement
  | stopMonitoring
  | showWrapper
  | enableElement
  | reattachBehaviors
deriving DecidableEq, Repr

/-- The parts of the `Drupal.Ajax` instance that its `error` method
consults: whether a progress element and a progress object are present,
whether the instance holds a form, and whether that form is still part of
the document. -/
structure AjaxErrorCtx where
  hasProgressElement : Bool
  hasProgressObject : Bool
  hasForm : Bool
  formInDocument : Bool
deriving Repr, DecidableEq

/-- The `Drupal.AjaxError` object built by its constructor, reduced to the
fields the claims constrain: its `name` property and the request data the
message is assembled from. -/
structure AjaxErrorValue where
  name : String
  status : Nat
  uri : String
  customMessage : Option String
deriving Repr, DecidableEq

/-- The `new Drupal.AjaxError(xmlhttprequest, uri, customMessage)` call at
the end of `Drupal.Ajax.prototype.error`; the constructor always sets
`this.name = 'AjaxError'`. -/
def mkAjaxError (status : Nat) (uri : String) (customMessage : Option String) :
    AjaxErrorValue :=
  ⟨"AjaxError", status, uri, customMessage⟩

/-- `Drupal.Ajax.prototype.error`: removes the progress element when one is
present, stops progress monitoring when a progress object is present, undoes
the hide of the wrapper, re-enables the triggering element, reattaches
behaviors when the instance holds a form that is still in the document, and
then throws a `Drupal.AjaxError`.  The effect list is returned together with
the thrown error value; the function is total, so the throw happens on every
failing request. -/
def ajaxOnError (ctx : AjaxErrorCtx) (status : Nat) (uri : String)
    (customMessage : Option String) : List AjaxErrorEffect × AjaxErrorValue :=
  ((if ctx.hasProgressElement then [.removeProgressElement] else []) ++
     (if ctx.hasProgressObject then [.stopMonitoring] else []) ++
     [.showWrapper, .enableElement] ++
     (if ctx.hasForm && ctx.formInDocument then [.reattachBehaviors] else []),
   mkAjaxError status uri customMessage)

/- ================================================================
   Drupal.Ajax.prototype.commandExecutionQueue
   ================================================================ -/

/-- One entry of a Drupal Ajax response array: its `command` property
(`none` when absent) and an opaque stand-in for the rest of the entry. -/
structure AjaxCommandEntry where
  command : Option String
  payload : Nat
deriving Repr, DecidableEq

/-- The registered handler the guard `command && ajaxCommands[command]`
selects for an entry: none when the `command` property is absent or the
empty string (both falsy), or when no handler of that name is registered in
`Drupal.AjaxCommands`. -/
def entryHandler {σ : Type}
    (ajaxCommands : String → Option (AjaxCommandEntry → Nat → σ → Except String σ))
    (entry : AjaxCommandEntry) :
    Option (AjaxCommandEntry → Nat → σ → Except String σ) :=
  match entry.command with
  | none => none
  | some c => if c = "" then none else ajaxCommands c

/-- One `.then` link of the queue built by the `reduce` in
`commandExecutionQueue`: it waits for the accumulated promise (a rejected
promise short-circuits, a fulfilled one passes its state on), then either
runs the registered handler on the entry or resolves immediately when the
entry is skipped. -/
def commandStep {σ : Type}
    (ajaxCommands : String → Option (AjaxCommandEntry → Nat → σ → Except String σ))
    (status : Nat) (acc : Except String σ) (entry : AjaxCommandEntry) :
    Except String σ :=
  acc.bind fun st =>
    match entryHandler ajaxCommands entry with
    | some handler => handler entry status st
    | none => .ok st

/-- `Drupal.Ajax.prototype.commandExecutionQueue`: starting from
`Promise.resolve()`, reduce over the keys of the response in order, chaining
each entry behind the promise accumulated so far.  The promise returned by a
handler is modelled by its `Except` result: fulfilment carries the next
page state, rejection aborts the rest of the chain. -/
def commandExecutionQueue {σ : Type}
    (ajaxCommands : String → Option (AjaxCommandEntry → Nat → σ → Except String σ))
    (response : List AjaxCommandEntry) (status : Nat) (st : σ) :
    Except String σ :=
  response.foldl (commandStep ajaxCommands status) (.ok st)

/- ================================================================
   The Attributes class (bootstrap attributes.js)
   ================================================================ -/

/-- An attribute value as stored in `Attributes.prototype.data`: the null
value, a string, or an array of strings (the shape the `class` entry and the
claims use; nested plain-object values do not occur in the class-handling
paths at issue). -/
inductive JVal where
  | null
  | str (s : String)
  | arr (l : List String)
deriving Repr, DecidableEq

/-- Lookup in a JavaScript object modelled as an association list with
unique keys in insertion order. -/
def alookup : List (String × JVal) → String → Option JVal
  | [], _ => none
  | kv :: d, k => if kv.1 = k then some kv.2 else alookup d k

/-- Property assignment `obj[k] = v`: an existing key keeps its position
(keys are unique, so replacing the first occurrence is replacing the only
one), a new key is appended. -/
def aset : List (String × JVal) → String → JVal → List (String × JVal)
  | [], k, v => [(k, v)]
  | kv :: d, k, v => if kv.1 = k then (k, v) :: d else kv :: aset d k v

/-- Property deletion `delete obj[k]`. -/
def adel (d : List (String × JVal)) (k : String) : List (String × JVal) :=
  d.filter (fun kv => kv.1 != k)

/-- An argument to `addClass`/`removeClass`/`sanitizeClasses`: an individual
class string or an arbitrarily nested array of such arguments, which
underscore's deep `_.flatten` flattens completely. -/
inductive CVal where
  | s (x : String)
  | l (xs : List CVal)
deriving Repr

mutual

/-- Deep flatten of a single sanitize argument (`_.flatten` descends into
arrays and leaves strings in place). -/
def cvalFlatten : CVal → List String
  | .s x => [x]
  | .l xs => cvalFlattenList xs

/-- Deep flatten of an argument list. -/
def cvalFlattenList : List CVal → List String
  | [] => []
  | c :: cs => cvalFlatten c ++ cvalFlattenList cs

end

/-- ASCII lowering of one character, the effect of
`String.prototype.toLowerCase` on the identifiers at issue (non-ASCII
uppercase letters, which full Unicode lowering would also map, are kept;
they play no role in any claim). -/
def asciiLower (c : Char) : Char :=
  if 65 ≤ c.toNat ∧ c.toNat ≤ 90 then Char.ofNat (c.toNat + 32) else c

/-- `identifier.toLowerCase()`. -/
def jsToLower (s : String) : String := String.mk (s.data.map asciiLower)

/-- `String.prototype.replace` with a string pattern: only the leftmost
occurrence of the pattern is replaced.  (All patterns used below are
non-empty.) -/
def replaceFirstChars (pat rep : List Char) : List Char → List Char
  | [] => []
  | c :: cs =>
    if pat.isPrefixOf (c :: cs) then rep ++ (c :: cs).drop pat.length
    else c :: replaceFirstChars pat rep cs

/-- String form of the leftmost-occurrence replace. -/
def replaceFirst (s pat rep : String) : String :=
  String.mk (replaceFirstChars pat.data rep.data s.data)

/-- The characters the cleaning regex
`[^-0-9A-Z_a-z¡-￿]`
keeps: hyphen, digits, ASCII letters, underscore and U+00A1..U+FFFF. -/
def cssAllowed (c : Char) : Bool :=
  c.toNat == 45 || (48 ≤ c.toNat && c.toNat ≤ 57) ||
    (65 ≤ c.toNat && c.toNat ≤ 90) || c.toNat == 95 ||
    (97 ≤ c.toNat && c.toNat ≤ 122) ||
    (161 ≤ c.toNat && c.toNat ≤ 65535)

/-- Removal of every character the cleaning regex rejects. -/
def stripDisallowed (s : String) : String :=
  String.mk (s.data.filter cssAllowed)

/-- The placeholder `Attributes.cleanClass` swaps in for the first double
underscore. -/
def doubleUnderscoreToken : String := "#DOUBLE_UNDERSCORE#"

/-- `identifier.replace(Object.keys(filter), ...)` passes an array where a
string is expected; JavaScript stringifies it, so the call searches for the
literal text of the joined key array. -/
def filterKeysJoined : String := " ,_,/,[,]"

/-- The joined replacement array of the same bogus call. -/
def filterValsJoined : String := "-,-,-,-,"

/-- The second bogus array-argument replace searches for the joined text of
two regex literals. -/
def numericPatternsJoined : String := "/^[0-9]/,/^(-[0-9])|^(--)/"

/-- Its joined replacement array. -/
def numericReplacementsJoined : String := "_,__"

/-- `Attributes.cleanClass` with the default filter: lowercase the
identifier, protect the first `__`, perform the stringified-array replace,
restore the protected `__`, strip every disallowed character, and perform
the second stringified-array replace. -/
def cleanClass (identifier : String) : String :=
  let i := jsToLower identifier
  let i := replaceFirst i "__" doubleUnderscoreToken
  let i := replaceFirst i filterKeysJoined filterValsJoined
  let i := replaceFirst i doubleUnderscoreToken "__"
  let i := stripDisallowed i
  replaceFirst i numericPatternsJoined numericReplacementsJoined

/-- `_.uniq` keeps the first occurrence of each value; `seen` holds the
values already emitted. -/
def uniqFirstAux (seen : List String) : List String → List String
  | [] => []
  | x :: xs =>
    if seen.contains x then uniqFirstAux seen xs
    else x :: uniqFirstAux (x :: seen) xs

/-- `_.uniq`. -/
def uniqFirst (l : List String) : List String := uniqFirstAux [] l

/-- Split of a character list at every occurrence of a separator character;
like the JavaScript `split`, adjacent separators and separators at either
end produce empty pieces, and the empty input gives one empty piece. -/
def splitChars (sep : Char) : List Char → List (List Char)
  | [] => [[]]
  | c :: cs =>
    if c = sep then [] :: splitChars sep cs
    else
      match splitChars sep cs with
      | [] => [[c]]
      | h :: t => (c :: h) :: t

/-- `string.split(' ')`. -/
def splitOnSpaces (s : String) : List String :=
  (splitChars ' ' s.data).map String.mk

/-- `Attributes.prototype.sanitizeClasses`: deep-flatten the arguments,
split each string on spaces, flatten again, drop falsy (empty) items, clean
every class with `cleanClass`, and deduplicate keeping first occurrences. -/
def sanitizeClasses (args : List CVal) : List String :=
  uniqFirst
    (((((cvalFlattenList args).map splitOnSpaces).flatten).filter
        (fun s => s != "")).map cleanClass)

/-- The `Attributes` object: its `data` plain object. -/
structure Attributes where
  data : List (String × JVal)
deriving Repr, DecidableEq

/-- `Attributes.prototype.exists`: the attribute is neither undefined nor
null. -/
def Attributes.existsAttr (a : Attributes) (name : String) : Bool :=
  match alookup a.data name with
  | none => false
  | some v => v != .null

/-- `Attributes.prototype.get`: when the attribute does not exist the
default value is first stored; the (possibly updated) object is returned
alongside the value. -/
def Attributes.get (a : Attributes) (name : String) (deflt : JVal) :
    JVal × Attributes :=
  if a.existsAttr name then ((alookup a.data name).getD deflt, a)
  else (deflt, ⟨aset a.data name deflt⟩)

/-- `Attributes.prototype.addClass`: concatenates the current class array
with the arguments and sanitizes the result.  The concatenation
`this.data['class'].concat(args)` presupposes the array shape the class
invariant provides; on an undefined or null entry the JavaScript throws,
and a string entry would fall into string concatenation — both are outside
every reachable state below and are modelled as a failure. -/
def Attributes.addClass (a : Attributes) (args : List CVal) :
    Except Unit Attributes :=
  match alookup a.data "class" with
  | some (.arr cs) =>
    .ok ⟨aset a.data "class" (.arr (sanitizeClasses (cs.map CVal.s ++ args)))⟩
  | _ => .error ()

/-- `Attributes.prototype.removeClass`: sanitize the classes to remove,
then store `_.without(this.getClasses(), remove)`.  `_.without` removes only
elements strictly equal to its individual value arguments; here it receives
the sanitized `remove` array as one value, `_.difference`'s one-level
flatten unwraps only the rest-argument wrapper, and the membership test
compares every class against the `remove` array itself — a string is never
strictly equal to an array, so no class is ever removed and the entry is
reassigned unchanged.  `getClasses` first installs the default empty array
when the entry is missing or null; a string entry is iterated by underscore
as an array-like, turning it into its (likewise unfiltered) characters. -/
def Attributes.removeClass (a : Attributes) (args : List CVal) : Attributes :=
  let _rem := sanitizeClasses args
  let va := a.get "class" (.arr [])
  let cs :=
    match va.1 with
    | .arr l => l
    | .str s => s.data.map (fun ch => String.mk [ch])
    | .null => []
  ⟨aset va.2.data "class" (.arr cs)⟩

/-- `Attributes.prototype.replaceClass`: `var classes = this.getClasses();`
may install the default empty array; then
`var i = _.indexOf(this.sanitizeClasses(oldValue), classes);` passes the
haystack and needle swapped, searching the sanitized old classes (strings)
for the `classes` array itself, so the strict-equality search always yields
`-1` and the `if (i >= 0)` body never runs. -/
def Attributes.replaceClass (a : Attributes) (_oldValue : CVal)
    (_newValue : String) : Attributes :=
  (a.get "class" (.arr [])).2

/-- `$.extend({}, this.data, object)` (non-recursive merge): each source
property overwrites the target property of the same name. -/
def extendShallow (t s : List (String × JVal)) : List (String × JVal) :=
  s.foldl (fun acc kv => aset acc kv.1 kv.2) t

/-- One property of `$.extend(true, ...)`: an array copy is merged
element-wise onto an array source (the copy wins on every index it has, the
source keeps the rest; when the source is not an array an empty clone is
used, so the copy wins outright); any other copy overwrites. -/
def extendDeepVal (src copy : JVal) : JVal :=
  match copy with
  | .arr l =>
    match src with
    | .arr ls => .arr (l ++ ls.drop l.length)
    | _ => .arr l
  | v => v

/-- `$.extend(true, {}, this.data, object)` (recursive merge). -/
def extendDeep (t s : List (String × JVal)) : List (String × JVal) :=
  s.foldl
    (fun acc kv => aset acc kv.1 (extendDeepVal ((alookup acc kv.1).getD .null) kv.2))
    t

/-- The shape of an incoming `class` value once handed to `addClass`: a
string stays a string, an array of strings becomes a list argument, and
the null value makes `sanitizeClasses` throw (`null.split` is not a
function), modelled as a failure. -/
def jvalToCVal : JVal → Except Unit CVal
  | .str s => .ok (.s s)
  | .arr l => .ok (.l (l.map CVal.s))
  | .null => .error ()

/-- `Attributes.prototype.merge` for a plain object (a falsy argument is
returned unchanged; DOM nodes, jQuery objects and `Attributes` instances
are first converted to plain objects in the source and are not modelled
separately): an incoming `class` property is diverted through `addClass`
and deleted from the object, after which the remaining properties are
merged with `$.extend`, deeply unless `recursive` is literally false. -/
def Attributes.merge (a : Attributes)
    (object : Option (List (String × JVal))) (recursive : Option Bool) :
    Except Unit Attributes :=
  match object with
  | none => .ok a
  | some obj =>
    (match alookup obj "class" with
     | some cv => do
       let c ← jvalToCVal cv
       let a1 ← a.addClass [c]
       pure (a1, adel obj "class")
     | none => pure (a, obj) :
        Except Unit (Attributes × List (String × JVal))).bind
      fun p =>
        if recursive = some false then .ok ⟨extendShallow p.1.data p.2⟩
        else .ok ⟨extendDeep p.1.data p.2⟩

/-- `Attributes.prototype.set` with a string name: builds the one-property
object and merges it (with `recursive` undefined). -/
def Attributes.set (a : Attributes) (name : String) (value : JVal) :
    Except Unit Attributes :=
  a.merge (some [(name, value)]) none

/-- `Attributes.prototype.remove`: deletes the attribute when it exists. -/
def Attributes.remove (a : Attributes) (name : String) : Attributes :=
  if a.existsAttr name then ⟨adel a.data name⟩ else a

/-- The state set up by the `Attributes` constructor before it merges its
argument: `this.data = {}; this.data['class'] = [];`. -/
def Attributes.init : Attributes := ⟨[("class", JVal.arr [])]⟩

/-- The `Attributes` constructor (also `Attributes.create`): initialize the
data with an empty class array, then merge the argument. -/
def Attributes.create (attributes : Option (List (String × JVal))) :
    Except Unit Attributes :=
  Attributes.init.merge attributes none

/-- One public mutating operation on an `Attributes` object, as the claim
enumerates them. -/
inductive AttrOp where
  | addClass (args : List CVal)
  | removeClass (args : List CVal)
  | replaceClass (oldValue : CVal) (newValue : String)
  | merge (object : Option (List (String × JVal))) (recursive : Option Bool)
  | set (name : String) (value : JVal)
  | remove (name : String)
  | get (name : String) (deflt : JVal)

/-- Application of one public operation (operations whose JavaScript would
throw yield a failure). -/
def applyOp (a : Attributes) : AttrOp → Except Unit Attributes
  | .addClass args => a.addClass args
  | .removeClass args => .ok (a.removeClass args)
  | .replaceClass o n => .ok (a.replaceClass o n)
  | .merge obj r => a.merge obj r
  | .set n v => a.set n v
  | .remove n => .ok (a.remove n)
  | .get n d => .ok (a.get n d).2

/-- Sequential execution of public operations. -/
def runOps (a : Attributes) : List AttrOp → Except Unit Attributes
  | [] => .ok a
  | op :: ops => (applyOp a op).bind fun a1 => runOps a1 ops

/-- The class invariant of an `Attributes` object: its data holds a `class`
entry, that entry is an array of pairwise-distinct class names, and each
name is an output of `Attributes.cleanClass`. -/
def ClassInv (a : Attributes) : Prop :=
  ∃ cs : List String,
    alookup a.data "class" = some (.arr cs) ∧ cs.Nodup ∧
      ∀ c ∈ cs, ∃ x, cleanClass x = c

/-- Handler used to witness the command-queue theorem: adds the entry
payload to the page state. -/
def witnessAddHandler : AjaxCommandEntry → Nat → Nat → Except String Nat :=
  fun e _ n => .ok (n + e.payload)

/-- Concrete command table used to witness the command-queue theorem: one
registered command `add`. -/
def witnessCommands (c : String) :
    Option (AjaxCommandEntry → Nat → Nat → Except String Nat) :=
  if c = "add" then some witnessAddHandler else none

/- ================================================================
   Theorems
   ================================================================ -/

/-- C8 counterexample: the README setup section documents neither a
database-import step nor a configuration-import step — its commands are
`lando init` and `lando start` only, and none of them mentions a database,
an sql dump, configuration, or importing — so the claimed four-step
procedure (bootstrap, database import, configuration import, start) is not
documented. -/
theorem readme_setup_missing_import_steps :
    readmeDocumentsDatabaseImport = false ∧
      readmeDocumentsConfigImport = false := by decide

/-- C8 (amended): the README documents a two-step local setup: the
container-based environment bootstrap `lando init` and the container start
`lando start`; it documents no database-import and no configuration-import
step. -/
theorem readme_setup_two_steps :
    "lando init" ∈ readmeSetupCommands ∧
      "lando start" ∈ readmeSetupCommands ∧
      readmeSetupCommands.length = 2 ∧
      readmeDocumentsDatabaseImport = false ∧
      readmeDocumentsConfigImport = false := by decide

/-- C5 counterexample: the aggregated JavaScript file does not consist of
the advertised subsystems alone: it also carries the loadjs script-loader
library, which belongs to none of them. -/
theorem aggregated_file_has_extra_components :
    ("loadjs", (none : Option AdvertisedSubsystem)) ∈ aggregatedFileComponents ∧
      aggregatedFileComponents.all (fun kv => kv.2.isSome) = false := by decide

/-- C5 (amended): the aggregated file defines every advertised subsystem —
the Bootstrap theme layer (with the Attributes class), the DXPR Builder
runtime, and the AJAX, dialog, progress-bar and entity-browser components —
together with exactly five further vendored utilities: loadjs,
Drupal.debounce, Drupal.displace, the jQuery UI tabbable shim and the
ported jQuery UI position. -/
theorem aggregated_file_inventory :
    ("drupal.bootstrap", some AdvertisedSubsystem.bootstrapTheme) ∈
        aggregatedFileComponents ∧
      ("attributes", some AdvertisedSubsystem.bootstrapTheme) ∈
        aggregatedFileComponents ∧
      ("dxprBuilder", some AdvertisedSubsystem.dxprBuilder) ∈
        aggregatedFileComponents ∧
      ("ajax", some AdvertisedSubsystem.ajax) ∈ aggregatedFileComponents ∧
      ("dialog", some AdvertisedSubsystem.dialog) ∈ aggregatedFileComponents ∧
      ("progress", some AdvertisedSubsystem.progressBar) ∈
        aggregatedFileComponents ∧
      ("entity_browser.common", some AdvertisedSubsystem.entityBrowser) ∈
        aggregatedFileComponents ∧
      (aggregatedFileComponents.filter (fun kv => kv.2.isNone)).map Prod.fst
        = ["loadjs", "debounce", "displace", "tabbingshim",
           "jquery.ui.position"] := by decide

/-- C2: `Drupal.entityBrowser.updateEntityIds` combines the lists by
selection mode — `selection_edit` keeps exactly the selected entities,
`selection_prepend` puts the selected entities before the existing ones,
and every other mode appends the selected entities to the existing ones —
then, whenever the cardinality is positive, truncates the combination to
its first `cardinality` elements, so the returned space-joined string never
encodes more than `cardinality` entity ids. -/
theorem updateEntityIds_spec (existing selected : List String)
    (mode : String) (card : Int) :
    (mode = "selection_edit" →
        combinedEntities existing selected mode = selected) ∧
      (mode = "selection_prepend" →
        combinedEntities existing selected mode = selected ++ existing) ∧
      (mode ≠ "selection_edit" → mode ≠ "selection_prepend" →
        combinedEntities existing selected mode = existing ++ selected) ∧
      (0 < card →
        updateEntityIdsList existing selected mode card
            = (combinedEntities existing selected mode).take card.toNat ∧
          ((updateEntityIdsList existing selected mode card).length : Int) ≤ card) ∧
      (¬ 0 < card →
        updateEntityIdsList existing selected mode card
          = combinedEntities existing selected mode) ∧
      updateEntityIds existing selected mode card
        = String.intercalate " " (updateEntityIdsList existing selected mode card) := by
  refine ⟨?_, ?_, ?_, ?_, ?_, rfl⟩
  · intro h; simp [combinedEntities, h]
  · intro h; simp [combinedEntities, h]
  · intro h1 h2; simp [combinedEntities, h1, h2]
  · intro hcard
    have htake : updateEntityIdsList existing selected mode card
        = (combinedEntities existing selected mode).take card.toNat := by
      unfold updateEntityIdsList
      set combined := combinedEntities existing selected mode with hc
      by_cases h : card < (combined.length : Int)
      · simp [hcard, h]
      · have hlen : combined.length ≤ card.toNat := by omega
        simp [hcard, h, List.take_of_length_le hlen]
    refine ⟨htake, ?_⟩
    rw [htake]
    have h1 : ((combinedEntities existing selected mode).take card.toNat).length
        ≤ card.toNat := by
      simp
    omega
  · intro hcard
    unfold updateEntityIdsList
    have h : ¬ (0 < card ∧
        card < ((combinedEntities existing selected mode).length : Int)) := by
      intro hcon
      exact hcard hcon.1
    simp only [if_neg h]

/-- C2 witness: the theorem applied to a concrete call — two existing ids,
two selected ids, append mode, cardinality 3. -/
theorem updateEntityIds_spec_witness :
    updateEntityIdsList ["1:1", "2:4"] ["2:7", "1:9"] "selection_append" 3
        = (combinedEntities ["1:1", "2:4"] ["2:7", "1:9"] "selection_append").take 3 ∧
      ((updateEntityIdsList ["1:1", "2:4"] ["2:7", "1:9"] "selection_append" 3).length : Int)
        ≤ 3 ∧
      updateEntityIds ["1:1", "2:4"] ["2:7", "1:9"] "selection_append" 3
        = "1:1 2:4 2:7" :=
  have h := (updateEntityIds_spec ["1:1", "2:4"] ["2:7", "1:9"]
    "selection_append" 3).2.2.2.1 (by decide)
  ⟨h.1, h.2, by decide⟩

/-- C7: for every failing request — with or without a progress indicator —
`Drupal.Ajax.prototype.error` removes the progress element when one is
present, stops progress monitoring when a progress object is present,
always undoes the hide and re-enables the triggering element, reattaches
behaviors exactly when the instance holds a form that is still in the
document, and always throws a `Drupal.AjaxError` (name `AjaxError`) built
from the failing request. -/
theorem ajax_error_spec (ctx : AjaxErrorCtx) (status : Nat) (uri : String)
    (customMessage : Option String) :
    (ctx.hasProgressElement = true →
        AjaxErrorEffect.removeProgressElement
          ∈ (ajaxOnError ctx status uri customMessage).1) ∧
      (ctx.hasProgressObject = true →
        AjaxErrorEffect.stopMonitoring ∈ (ajaxOnError ctx status uri customMessage).1) ∧
      AjaxErrorEffect.showWrapper ∈ (ajaxOnError ctx status uri customMessage).1 ∧
      AjaxErrorEffect.enableElement ∈ (ajaxOnError ctx status uri customMessage).1 ∧
      (ctx.hasForm = true → ctx.formInDocument = true →
        AjaxErrorEffect.reattachBehaviors ∈ (ajaxOnError ctx status uri customMessage).1) ∧
      (¬(ctx.hasForm = true ∧ ctx.formInDocument = true) →
        AjaxErrorEffect.reattachBehaviors ∉ (ajaxOnError ctx status uri customMessage).1) ∧
      (ajaxOnError ctx status uri customMessage).2
        = ⟨"AjaxError", status, uri, customMessage⟩ := by
  rcases ctx with ⟨pe, po, hf, fd⟩
  cases pe <;> cases po <;> cases hf <;> cases fd <;>
    simp [ajaxOnError, mkAjaxError]

/-- C7 witness: the theorem applied both to an instance with a progress
element, a progress object and a form still in the document, and to a bare
instance with none of them (a request whose progress indicator was never
inserted), for failed requests with status 500. -/
theorem ajax_error_spec_witness :
    AjaxErrorEffect.removeProgressElement
        ∈ (ajaxOnError ⟨true, true, true, true⟩ 500 "/node/1" (some "custom")).1 ∧
      AjaxErrorEffect.enableElement
        ∈ (ajaxOnError ⟨false, false, false, false⟩ 500 "/node/1" none).1 ∧
      (ajaxOnError ⟨false, false, false, false⟩ 500 "/node/1" none).2
        = ⟨"AjaxError", 500, "/node/1", none⟩ :=
  have h1 := ajax_error_spec ⟨true, true, true, true⟩ 500 "/node/1" (some "custom")
  have h2 := ajax_error_spec ⟨false, false, false, false⟩ 500 "/node/1" none
  ⟨h1.1 rfl, h2.2.2.2.1, h2.2.2.2.2.2.2⟩

/-- C4 counterexample: for an out-of-range percentage the effective
(bootstrap-override) `setProgress` does invoke the update callback, but
with the trimmed message, not the given one: with message `"hi "` the
callback receives `"hi"`. -/
theorem setProgress_callback_trims_message :
    (setProgressBootstrap true ⟨"0%", none, "", "", ""⟩ (-1) "hi " "lbl").2
        = some ⟨-1, "hi"⟩ ∧
      some (ProgressCallbackCall.mk (-1) "hi")
        ≠ some (ProgressCallbackCall.mk (-1) "hi ") := by decide

/-- C4 (amended): for every percentage outside `0..100` both `setProgress`
implementations leave the bar width, the `aria-valuenow` attribute and the
percentage text unchanged, while the update callback, when supplied at
construction, is still invoked with the given percentage — the core version
passes the message unchanged, the effective bootstrap override passes a
non-empty message through `message.replace(/<br\/>&nbsp;|\s*$/, '')`
first. -/
theorem setProgress_out_of_range_frame (hasCb : Bool) (dom : ProgressDom)
    (p : Int) (m l : String) (h : ¬(0 ≤ p ∧ p ≤ 100)) :
    ((setProgressCore hasCb dom p m l).1.barWidth = dom.barWidth ∧
      (setProgressCore hasCb dom p m l).1.percentageHtml = dom.percentageHtml ∧
      (setProgressCore hasCb dom p m l).1.ariaValuenow = dom.ariaValuenow ∧
      (setProgressCore hasCb dom p m l).2
        = (if hasCb then some ⟨p, m⟩ else none)) ∧
    ((setProgressBootstrap hasCb dom p m l).1.barWidth = dom.barWidth ∧
      (setProgressBootstrap hasCb dom p m l).1.percentageHtml = dom.percentageHtml ∧
      (setProgressBootstrap hasCb dom p m l).1.ariaValuenow = dom.ariaValuenow ∧
      (setProgressBootstrap hasCb dom p m l).2
        = (if hasCb then
            some ⟨p, if m ≠ "" then trimMessage m else m⟩
          else none)) := by
  constructor
  · simp [setProgressCore, if_neg h]
  · simp only [setProgressBootstrap, if_neg h]
    by_cases hm : m = "" <;> by_cases hl : l = "" <;>
      simp [hm, hl]

/-- C4 witness: the amended theorem applied at percentage `-1` (the value
core ajax.js itself passes for message-only progress updates), with a
callback, a trailing-whitespace message and a label. -/
theorem setProgress_out_of_range_frame_witness :
    (setProgressCore true ⟨"37%", some 37, "37%", "old", "old"⟩ (-1) "hi " "lbl").1.barWidth
        = "37%" ∧
      (setProgressCore true ⟨"37%", some 37, "37%", "old", "old"⟩ (-1) "hi " "lbl").2
        = some ⟨-1, "hi "⟩ ∧
      (setProgressBootstrap true ⟨"37%", some 37, "37%", "old", "old"⟩ (-1) "hi " "lbl").1.barWidth
        = "37%" ∧
      (setProgressBootstrap true ⟨"37%", some 37, "37%", "old", "old"⟩ (-1) "hi " "lbl").2
        = some ⟨-1, trimMessage "hi "⟩ :=
  have h := setProgress_out_of_range_frame true ⟨"37%", some 37, "37%", "old", "old"⟩
    (-1) "hi " "lbl" (by decide)
  ⟨h.1.1, h.1.2.2.2, h.2.1, by rw [h.2.2.2.2]; decide⟩

/-- Rejected promises short-circuit the rest of the command queue. -/
theorem foldl_commandStep_error {σ : Type}
    (ajaxCommands : String → Option (AjaxCommandEntry → Nat → σ → Except String σ))
    (status : Nat) (e : String) (l : List AjaxCommandEntry) :
    l.foldl (commandStep ajaxCommands status) (.error e) = .error e := by
  induction l with
  | nil => rfl
  | cons entry rest ih => simpa [commandStep, Except.bind] using ih

/-- The queue over any accumulated promise equals binding the accumulator
into the queue started afresh. -/
theorem foldl_commandStep_acc {σ : Type}
    (ajaxCommands : String → Option (AjaxCommandEntry → Nat → σ → Except String σ))
    (status : Nat) (l : List AjaxCommandEntry) (acc : Except String σ) :
    l.foldl (commandStep ajaxCommands status) acc
      = acc.bind (fun st => commandExecutionQueue ajaxCommands l status st) := by
  induction l generalizing acc with
  | nil =>
    cases acc <;> simp [commandExecutionQueue, Except.bind]
  | cons entry rest ih =>
    cases acc with
    | error e =>
      simp [Except.bind, commandStep, foldl_commandStep_error]
    | ok st =>
      have h1 : (Except.ok st : Except String σ).bind
          (fun s1 => commandExecutionQueue ajaxCommands (entry :: rest) status s1)
          = (commandStep ajaxCommands status (.ok st) entry).bind
              (fun s1 => commandExecutionQueue ajaxCommands rest status s1) := by
        simp only [Except.bind, commandExecutionQueue, List.foldl_cons]
        exact ih (commandStep ajaxCommands status (.ok st) entry)
      simp only [List.foldl_cons, h1]
      exact ih (commandStep ajaxCommands status (.ok st) entry)

/-- C1: the command queue built by `commandExecutionQueue` is strictly
sequential in response-key order: splitting the response anywhere, the
whole queue is the queue of the prefix followed — only on its fulfilment,
with the state it produced — by the queue of the suffix (a rejection in the
prefix aborts the suffix); entries whose command is unregistered (or whose
`command` is falsy) are skipped without any effect on the result; and a
single registered entry runs exactly its handler, so the returned promise
is fulfilled only when every registered command has finished executing. -/
theorem commandExecutionQueue_sequential {σ : Type}
    (ajaxCommands : String → Option (AjaxCommandEntry → Nat → σ → Except String σ))
    (status : Nat) (st : σ) (pre post response : List AjaxCommandEntry)
    (entry : AjaxCommandEntry)
    (handler : AjaxCommandEntry → Nat → σ → Except String σ)
    (hreg : entryHandler ajaxCommands entry = some handler) :
    (commandExecutionQueue ajaxCommands (pre ++ post) status st
        = (commandExecutionQueue ajaxCommands pre status st).bind
            (fun st1 => commandExecutionQueue ajaxCommands post status st1)) ∧
      (commandExecutionQueue ajaxCommands response status st
        = commandExecutionQueue ajaxCommands
            (response.filter (fun e => (entryHandler ajaxCommands e).isSome))
            status st) ∧
      (commandExecutionQueue ajaxCommands [entry] status st
        = handler entry status st) := by
  refine ⟨?_, ?_, ?_⟩
  · show (pre ++ post).foldl (commandStep ajaxCommands status) (.ok st) = _
    rw [List.foldl_append]
    exact foldl_commandStep_acc ajaxCommands status post _
  · induction response generalizing st with
    | nil => rfl
    | cons e rest ih =>
      show (e :: rest).foldl (commandStep ajaxCommands status) (.ok st) = _
      rw [List.foldl_cons, foldl_commandStep_acc]
      rcases he : entryHandler ajaxCommands e with _ | h
      · have hstep : commandStep ajaxCommands status (.ok st) e = .ok st := by
          simp [commandStep, Except.bind, he]
        rw [hstep]
        have hfilter : (e :: rest).filter
            (fun e2 => (entryHandler ajaxCommands e2).isSome)
            = rest.filter (fun e2 => (entryHandler ajaxCommands e2).isSome) := by
          simp [List.filter_cons, he]
        rw [hfilter]
        simpa [Except.bind] using ih st
      · have hstep : commandStep ajaxCommands status (.ok st) e
            = h e status st := by
          simp [commandStep, Except.bind, he]
        rw [hstep]
        have hfilter : (e :: rest).filter
            (fun e2 => (entryHandler ajaxCommands e2).isSome)
            = e :: rest.filter (fun e2 => (entryHandler ajaxCommands e2).isSome) := by
          simp [List.filter_cons, he]
        rw [hfilter]
        show _ = (e :: _).foldl (commandStep ajaxCommands status) (.ok st)
        rw [List.foldl_cons, hstep, foldl_commandStep_acc]
        rcases h e status st with e1 | st1
        · simp [Except.bind]
        · simpa [Except.bind] using ih st1
  · show [entry].foldl (commandStep ajaxCommands status) (.ok st) = _
    simp [List.foldl_cons, commandStep, Except.bind, hreg]

/-- C1 witness: the theorem applied to the `add` command table, splitting a
three-entry response around an unregistered `missing` entry. -/
theorem commandExecutionQueue_sequential_witness :
    (commandExecutionQueue witnessCommands
        ([⟨some "add", 2⟩] ++ [⟨some "missing", 9⟩, ⟨some "add", 5⟩]) 200 0
      = (commandExecutionQueue witnessCommands [⟨some "add", 2⟩] 200 0).bind
          (fun st1 => commandExecutionQueue witnessCommands
            [⟨some "missing", 9⟩, ⟨some "add", 5⟩] 200 st1)) ∧
      (commandExecutionQueue witnessCommands
          [⟨some "add", 2⟩, ⟨some "missing", 9⟩, ⟨some "add", 5⟩] 200 0
        = commandExecutionQueue witnessCommands
            ([⟨some "add", 2⟩, ⟨some "missing", 9⟩, ⟨some "add", 5⟩].filter
              (fun e => (entryHandler witnessCommands e).isSome)) 200 0) ∧
      (commandExecutionQueue witnessCommands [⟨some "add", 2⟩] 200 0
        = witnessAddHandler ⟨some "add", 2⟩ 200 0) :=
  commandExecutionQueue_sequential witnessCommands 200 0
    [⟨some "add", 2⟩] [⟨some "missing", 9⟩, ⟨some "add", 5⟩]
    [⟨some "add", 2⟩, ⟨some "missing", 9⟩, ⟨some "add", 5⟩]
    ⟨some "add", 2⟩ witnessAddHandler rfl

/-- Assignment stores the value under its key. -/
theorem alookup_aset_self (d : List (String × JVal)) (k : String) (v : JVal) :
    alookup (aset d k v) k = some v := by
  induction d with
  | nil => simp [aset, alookup]
  | cons kv rest ih =>
    by_cases h : kv.1 = k
    · simp [aset, alookup, h]
    · simp [aset, alookup, h, ih]

/-- Assignment leaves other keys untouched. -/
theorem alookup_aset_ne (d : List (String × JVal)) (k2 k : String) (v : JVal)
    (h : k2 ≠ k) : alookup (aset d k2 v) k = alookup d k := by
  induction d with
  | nil =>
    show (if k2 = k then some v else alookup [] k) = none
    rw [if_neg h]
    rfl
  | cons kv rest ih =>
    show alookup (if kv.1 = k2 then (k2, v) :: rest else kv :: aset rest k2 v) k
      = alookup (kv :: rest) k
    by_cases h1 : kv.1 = k2
    · rw [if_pos h1]
      show (if k2 = k then some v else alookup rest k)
        = (if kv.1 = k then some kv.2 else alookup rest k)
      rw [if_neg h, if_neg (by rw [h1]; exact h)]
    · rw [if_neg h1]
      show (if kv.1 = k then some kv.2 else alookup (aset rest k2 v) k)
        = (if kv.1 = k then some kv.2 else alookup rest k)
      by_cases h2 : kv.1 = k
      · rw [if_pos h2, if_pos h2]
      · rw [if_neg h2, if_neg h2, ih]

/-- Deletion leaves other keys untouched. -/
theorem alookup_adel_ne (d : List (String × JVal)) (k2 k : String)
    (h : k2 ≠ k) : alookup (adel d k2) k = alookup d k := by
  induction d with
  | nil => rfl
  | cons kv rest ih =>
    show alookup (List.filter (fun kv => kv.1 != k2) (kv :: rest)) k
      = alookup (kv :: rest) k
    rw [List.filter_cons]
    by_cases h1 : kv.1 = k2
    · rw [if_neg (by simp [h1])]
      show alookup (adel rest k2) k = _
      rw [ih]
      show _ = (if kv.1 = k then some kv.2 else alookup rest k)
      rw [if_neg (by rw [h1]; exact h)]
    · rw [if_pos (by simp [h1])]
      show (if kv.1 = k then some kv.2
          else alookup (List.filter (fun kv => kv.1 != k2) rest) k)
        = (if kv.1 = k then some kv.2 else alookup rest k)
      by_cases h2 : kv.1 = k
      · rw [if_pos h2, if_pos h2]
      · rw [if_neg h2, if_neg h2]
        exact ih

/-- A key that does not look up is the key of no entry. -/
theorem alookup_none_keys (d : List (String × JVal)) (k : String)
    (h : alookup d k = none) : ∀ kv ∈ d, kv.1 ≠ k := by
  induction d with
  | nil => intro kv hkv; exact absurd hkv (List.not_mem_nil kv)
  | cons kv0 rest ih =>
    intro kv hkv
    by_cases h1 : kv0.1 = k
    · simp [alookup, h1] at h
    · rcases List.mem_cons.mp hkv with rfl | h2
      · exact h1
      · exact ih (by simpa [alookup, h1] using h) kv h2

/-- Deletion removes every entry of the deleted key. -/
theorem adel_keys (d : List (String × JVal)) (k : String) :
    ∀ kv ∈ adel d k, kv.1 ≠ k := by
  intro kv hkv
  have := List.of_mem_filter hkv
  simpa using this

/-- A shallow `$.extend` with a source lacking a key leaves that key of the
target untouched. -/
theorem alookup_extendShallow (s t : List (String × JVal)) (k : String)
    (hs : ∀ kv ∈ s, kv.1 ≠ k) :
    alookup (extendShallow t s) k = alookup t k := by
  induction s generalizing t with
  | nil => rfl
  | cons kv rest ih =>
    show alookup (extendShallow (aset t kv.1 kv.2) rest) k = _
    rw [ih _ (fun kv2 h2 => hs kv2 (List.mem_cons_of_mem _ h2)),
      alookup_aset_ne _ _ _ _ (hs kv (List.mem_cons_self _ _))]

/-- A deep `$.extend` with a source lacking a key leaves that key of the
target untouched. -/
theorem alookup_extendDeep (s t : List (String × JVal)) (k : String)
    (hs : ∀ kv ∈ s, kv.1 ≠ k) :
    alookup (extendDeep t s) k = alookup t k := by
  induction s generalizing t with
  | nil => rfl
  | cons kv rest ih =>
    show alookup
        (extendDeep (aset t kv.1 (extendDeepVal ((alookup t kv.1).getD .null) kv.2)) rest) k = _
    rw [ih _ (fun kv2 h2 => hs kv2 (List.mem_cons_of_mem _ h2)),
      alookup_aset_ne _ _ _ _ (hs kv (List.mem_cons_self _ _))]

/-- Values emitted by `_.uniq` come from the input. -/
theorem mem_uniqFirstAux (l : List String) :
    ∀ seen x, x ∈ uniqFirstAux seen l → x ∈ l := by
  induction l with
  | nil => intro seen x hx; simp [uniqFirstAux] at hx
  | cons y ys ih =>
    intro seen x hx
    by_cases hc : seen.contains y
    · rw [uniqFirstAux, if_pos hc] at hx
      exact List.mem_cons_of_mem _ (ih seen x hx)
    · rw [uniqFirstAux, if_neg hc] at hx
      rcases List.mem_cons.mp hx with rfl | h2
      · exact List.mem_cons_self _ _
      · exact List.mem_cons_of_mem _ (ih _ x h2)

/-- `_.uniq` emits no value already seen and no value twice. -/
theorem uniqFirstAux_nodup (l : List String) :
    ∀ seen, (uniqFirstAux seen l).Nodup ∧
      ∀ x ∈ uniqFirstAux seen l, ¬ (seen.contains x = true) := by
  induction l with
  | nil => intro seen; simp [uniqFirstAux]
  | cons y ys ih =>
    intro seen
    by_cases hc : seen.contains y
    · rw [uniqFirstAux, if_pos hc]
      exact ih seen
    · rw [uniqFirstAux, if_neg hc]
      refine ⟨List.nodup_cons.mpr ⟨?_, (ih (y :: seen)).1⟩, ?_⟩
      · intro hy
        exact (ih (y :: seen)).2 y hy (by simp)
      · intro x hx
        rcases List.mem_cons.mp hx with rfl | h2
        · exact hc
        · intro hcon
          refine (ih (y :: seen)).2 x h2 ?_
          simp only [List.contains_cons, Bool.or_eq_true]
          exact Or.inr hcon

/-- `sanitizeClasses` yields pairwise-distinct classes. -/
theorem sanitizeClasses_nodup (args : List CVal) :
    (sanitizeClasses args).Nodup :=
  (uniqFirstAux_nodup _ []).1

/-- Every class `sanitizeClasses` yields is an output of `cleanClass`. -/
theorem sanitizeClasses_mem (args : List CVal) :
    ∀ c ∈ sanitizeClasses args, ∃ x, cleanClass x = c := by
  intro c hc
  have h1 := mem_uniqFirstAux _ [] c hc
  rcases List.mem_map.mp h1 with ⟨x, _, h2⟩
  exact ⟨x, h2⟩

/-- The constructor's initial state satisfies the class invariant. -/
theorem classInv_init : ClassInv Attributes.init :=
  ⟨[], by simp [Attributes.init, alookup], List.nodup_nil,
    fun c hc => absurd hc (List.not_mem_nil c)⟩

/-- `addClass` preserves the class invariant. -/
theorem classInv_addClass {a a1 : Attributes} {args : List CVal}
    (h : ClassInv a) (h2 : a.addClass args = .ok a1) : ClassInv a1 := by
  rcases h with ⟨cs, hcs, -, -⟩
  unfold Attributes.addClass at h2
  rw [hcs] at h2
  have h3 : Attributes.mk
      (aset a.data "class" (.arr (sanitizeClasses (cs.map CVal.s ++ args)))) = a1 := by
    exact Except.ok.inj h2
  rw [← h3]
  exact ⟨sanitizeClasses (cs.map CVal.s ++ args), alookup_aset_self _ _ _,
    sanitizeClasses_nodup _, sanitizeClasses_mem _⟩

/-- Under the invariant the class entry exists, so `get` on it changes
nothing; `get` on any other name can only add that other name. -/
theorem classInv_get {a : Attributes} (n : String) (d : JVal)
    (h : ClassInv a) : ClassInv (a.get n d).2 := by
  rcases h with ⟨cs, hcs, hnd, hcl⟩
  unfold Attributes.get
  by_cases hex : a.existsAttr n
  · rw [if_pos hex]
    exact ⟨cs, hcs, hnd, hcl⟩
  · rw [if_neg hex]
    have hne : n ≠ "class" := by
      intro heq
      apply hex
      unfold Attributes.existsAttr
      rw [heq, hcs]
      rfl
    exact ⟨cs, by rw [alookup_aset_ne _ _ _ _ hne]; exact hcs, hnd, hcl⟩

/-- Under the invariant `getClasses` returns the invariant class array and
leaves the object unchanged. -/
theorem get_class_of_inv {a : Attributes} {cs : List String}
    (hcs : alookup a.data "class" = some (.arr cs)) :
    a.get "class" (.arr []) = (JVal.arr cs, a) := by
  unfold Attributes.get Attributes.existsAttr
  rw [hcs]
  rfl

/-- `removeClass` preserves the class invariant (under the invariant it
reassigns the class array unchanged, since its `_.without` misuse removes
nothing). -/
theorem classInv_removeClass {a : Attributes} (args : List CVal)
    (h : ClassInv a) : ClassInv (a.removeClass args) := by
  rcases h with ⟨cs, hcs, hnd, hcl⟩
  unfold Attributes.removeClass
  rw [get_class_of_inv hcs]
  exact ⟨cs, alookup_aset_self _ _ _, hnd, hcl⟩

/-- `replaceClass` preserves the class invariant (its swapped `_.indexOf`
arguments make the rewrite branch dead code, so only the `getClasses`
default-install step remains). -/
theorem classInv_replaceClass {a : Attributes} (o : CVal) (n : String)
    (h : ClassInv a) : ClassInv (a.replaceClass o n) := by
  rcases h with ⟨cs, hcs, hnd, hcl⟩
  unfold Attributes.replaceClass
  rw [get_class_of_inv hcs]
  exact ⟨cs, hcs, hnd, hcl⟩

/-- `remove` of any attribute other than `class` preserves the class
invariant. -/
theorem classInv_remove_ne {a : Attributes} {n : String}
    (h : ClassInv a) (hn : n ≠ "class") : ClassInv (a.remove n) := by
  rcases h with ⟨cs, hcs, hnd, hcl⟩
  unfold Attributes.remove
  by_cases hex : a.existsAttr n
  · rw [if_pos hex]
    exact ⟨cs, by rw [alookup_adel_ne _ _ _ hn]; exact hcs, hnd, hcl⟩
  · rw [if_neg hex]
    exact ⟨cs, hcs, hnd, hcl⟩

/-- `merge` preserves the class invariant: an incoming `class` value is
diverted through `addClass` and deleted before the extend, and the extend
cannot touch the class entry. -/
theorem classInv_merge {a a1 : Attributes}
    {obj : Option (List (String × JVal))} {r : Option Bool}
    (h : ClassInv a) (h2 : a.merge obj r = .ok a1) : ClassInv a1 := by
  cases obj with
  | none =>
    rw [show a1 = a from (Except.ok.inj h2).symm]
    exact h
  | some o =>
    simp only [Attributes.merge] at h2
    rcases halo : alookup o "class" with _ | cv
    · rw [halo] at h2
      dsimp only at h2
      simp only [pure, Except.pure, Except.bind] at h2
      have hkeys := alookup_none_keys o "class" halo
      rcases h with ⟨cs, hcs, hnd, hcl⟩
      by_cases hr : r = some false
      · rw [if_pos hr] at h2
        rw [← Except.ok.inj h2]
        exact ⟨cs, by rw [alookup_extendShallow _ _ _ hkeys]; exact hcs, hnd, hcl⟩
      · rw [if_neg hr] at h2
        rw [← Except.ok.inj h2]
        exact ⟨cs, by rw [alookup_extendDeep _ _ _ hkeys]; exact hcs, hnd, hcl⟩
    · rw [halo] at h2
      dsimp only at h2
      rw [show (do
            let c ← jvalToCVal cv
            let a2 ← a.addClass [c]
            pure (a2, adel o "class") :
          Except Unit (Attributes × List (String × JVal)))
        = (jvalToCVal cv).bind (fun c => (a.addClass [c]).bind
            (fun a2 => pure (a2, adel o "class"))) from rfl] at h2
      rcases hcv : jvalToCVal cv with u | c
      · rw [hcv] at h2
        simp [Except.bind] at h2
      · rw [hcv] at h2
        dsimp only [Except.bind] at h2
        rcases hadd : a.addClass [c] with u | a2
        · rw [hadd] at h2
          simp [Except.bind] at h2
        · rw [hadd] at h2
          simp only [pure, Except.pure, Except.bind] at h2
          have hinv2 : ClassInv a2 := classInv_addClass h hadd
          rcases hinv2 with ⟨cs, hcs, hnd, hcl⟩
          have hkeys := adel_keys o "class"
          by_cases hr : r = some false
          · rw [if_pos hr] at h2
            rw [← Except.ok.inj h2]
            exact ⟨cs, by rw [alookup_extendShallow _ _ _ hkeys]; exact hcs, hnd, hcl⟩
          · rw [if_neg hr] at h2
            rw [← Except.ok.inj h2]
            exact ⟨cs, by rw [alookup_extendDeep _ _ _ hkeys]; exact hcs, hnd, hcl⟩

/-- `set` preserves the class invariant. -/
theorem classInv_set {a a1 : Attributes} {n : String} {v : JVal}
    (h : ClassInv a) (h2 : a.set n v = .ok a1) : ClassInv a1 :=
  classInv_merge h h2

/-- Every public operation other than `remove('class')` preserves the class
invariant. -/
theorem classInv_applyOp {a a1 : Attributes} {op : AttrOp}
    (h : ClassInv a) (hop : op ≠ AttrOp.remove "class")
    (h2 : applyOp a op = .ok a1) : ClassInv a1 := by
  cases op with
  | addClass args => exact classInv_addClass h h2
  | removeClass args =>
    rw [← Except.ok.inj h2]
    exact classInv_removeClass args h
  | replaceClass o n =>
    rw [← Except.ok.inj h2]
    exact classInv_replaceClass o n h
  | merge obj r => exact classInv_merge h h2
  | set n v => exact classInv_set h h2
  | remove n =>
    rw [← Except.ok.inj h2]
    refine classInv_remove_ne h ?_
    intro heq
    exact hop (by rw [heq])
  | get n d =>
    rw [← Except.ok.inj h2]
    exact classInv_get n d h

/-- Any sequence of public operations avoiding `remove('class')` preserves
the class invariant. -/
theorem classInv_runOps {ops : List AttrOp} :
    ∀ {a a1 : Attributes}, ClassInv a →
      (∀ op ∈ ops, op ≠ AttrOp.remove "class") →
      runOps a ops = .ok a1 → ClassInv a1 := by
  induction ops with
  | nil =>
    intro a a1 h _ h2
    rw [← Except.ok.inj h2]
    exact h
  | cons op rest ih =>
    intro a a1 h hops h2
    unfold runOps at h2
    rcases happ : applyOp a op with u | a2
    · rw [happ] at h2
      simp [Except.bind] at h2
    · rw [happ] at h2
      simp only [Except.bind] at h2
      exact ih (classInv_applyOp h (hops op (List.mem_cons_self _ _)) happ)
        (fun o ho => hops o (List.mem_cons_of_mem _ ho)) h2

/-- C3 counterexample: `remove('class')` — a public operation the claim
covers — deletes the `class` entry outright, so the entry does not always
exist; and `sanitizeClasses` can produce an empty class name, because it
filters empty items before cleaning and `cleanClass` may strip every
character (here from `"["`). -/
theorem attributes_class_removable :
    runOps Attributes.init [AttrOp.remove "class"]
        = .ok (Attributes.mk []) ∧
      alookup (Attributes.mk []).data "class" = none ∧
      sanitizeClasses [CVal.s "["] = [""] :=
  ⟨rfl, rfl, rfl⟩

/-- C3 (amended): starting from any constructed `Attributes` object, after
any sequence of the public operations (`addClass`, `removeClass`,
`replaceClass`, `merge`, `set`, `remove`, `get`) in which `remove` is never
applied to `class`, the `class` entry of the data exists and is an array of
pairwise-distinct class-name strings, each an output of
`Attributes.cleanClass` as applied by `sanitizeClasses` (such an output can
be the empty string); construction initializes the entry to the empty array
before merging its argument, and `merge` diverts an incoming `class` value
through `addClass` rather than overwriting the entry. -/
theorem attributes_class_invariant (init : Option (List (String × JVal)))
    (ops : List AttrOp) (a0 a1 : Attributes)
    (h0 : Attributes.create init = .ok a0)
    (hops : ∀ op ∈ ops, op ≠ AttrOp.remove "class")
    (h1 : runOps a0 ops = .ok a1) :
    alookup Attributes.init.data "class" = some (.arr []) ∧
      ClassInv a0 ∧ ClassInv a1 := by
  have hinv0 : ClassInv a0 := classInv_merge classInv_init h0
  exact ⟨rfl, hinv0, classInv_runOps hinv0 hops h1⟩

/-- C3 witness: the amended theorem applied to a construction from a plain
object carrying an `id` and a space-separated `class` string, followed by
one call of every public operation (with `remove` applied to `id`, not to
`class`). -/
theorem attributes_class_invariant_witness :
    ClassInv (Attributes.mk
      [("class", JVal.arr ["btn", "btn-primary", "extra", "big", "x_y"]),
       ("role", JVal.str "note"),
       ("data-mode", JVal.str "on")]) :=
  (attributes_class_invariant
    (some [("id", JVal.str "Main"), ("class", JVal.str "btn btn-primary")])
    [AttrOp.addClass [CVal.s "Extra  big", CVal.l [CVal.s "btn"]],
     AttrOp.get "class" (JVal.str "ignored"),
     AttrOp.removeClass [CVal.s "btn-primary"],
     AttrOp.replaceClass (CVal.s "btn") "button",
     AttrOp.merge (some [("role", JVal.str "note"),
       ("class", JVal.arr ["x_y", "btn"])]) none,
     AttrOp.set "data-mode" (JVal.str "on"),
     AttrOp.remove "id"]
    (Attributes.mk
      [("class", JVal.arr ["btn", "btn-primary"]), ("id", JVal.str "Main")])
    (Attributes.mk
      [("class", JVal.arr ["btn", "btn-primary", "extra", "big", "x_y"]),
       ("role", JVal.str "note"),
       ("data-mode", JVal.str "on")])
    rfl
    (by intro op hop
        fin_cases hop <;> intro hcon <;> simp at hcon)
    rfl).2.2
